import Mathlib

/-!
Verification development for the modified-blackbody (MBB) SED model of
src/mbb.py (class ModifiedBlackbody).

Embedding conventions.
IEEE floats are idealised as exact rationals.  A log-luminosity value that is
not finite in NumPy (log10 of a non-positive luminosity gives -inf) is
modelled as Option.none; a finite value c is modelled as some c.

The module mbb_model.mbb_funcs (the four spectral model functions) is not part
of src/.  Wherever a definition depends on it, the missing part is modelled
from the spec and marked as such: per spec section 4.1 the flux of every
variant is proportional to Normalization times a positive spectral factor, so
the integrand is modelled as N * shape(lambda) with an abstract shape, and the
map from Normalization N to log10 of the integrated 8-1000 micron luminosity
is abstracted as a function Lfun from rationals to Option rationals.

The constructor calibration loop is embedded twice: initCalib over exact
rationals, covering only runs whose iterates keep a finite log-luminosity
(sufficient for the stored-rounding and round-trip results), and initCalibPy
over the four-valued float domain PyF, which also models the IEEE non-finite
values -inf, +inf and NaN that the NumPy loop can produce, including the exit
of the while loop when the current log-luminosity becomes NaN (every
comparison with NaN is False).
-/

/-- Rounding to 2 decimal places, modelling np.round(x, 2) as used at
src/mbb.py lines 64 and 93.  round-half-up on exact rationals; NumPy uses
round-half-even on floats, which agrees except at exact half-way points,
which no theorem below goes near. -/
def round2 (x : ℚ) : ℚ := ((⌊100 * x + 1/2⌋ : ℤ) : ℚ) / 100

/-- Rounding to 4 decimal places, modelling np.round(x, 4) as used in
save_state (src/mbb.py lines 106-107). -/
def round4 (x : ℚ) : ℚ := ((⌊10000 * x + 1/2⌋ : ℤ) : ℚ) / 10000

/-- The mutable state of a ModifiedBlackbody instance: the attributes
self.L, self.T, self.beta, self.z, self.opthin, self.pl, self.N set in
ModifiedBlackbody.__init__ (src/mbb.py lines 51-59).  L is an Option because
self.L holds np.log10 of a luminosity, which NumPy makes -inf when the
luminosity is zero. -/
structure MBBState where
  L : Option ℚ
  T : ℚ
  beta : ℚ
  z : ℚ
  opthin : Bool
  pl : Bool
  N : ℚ

/-- The calibration while-loop of ModifiedBlackbody.__init__
(src/mbb.py lines 60-63):

  Lcurr = np.log10(self.get_luminosity((8,1000)).value)
  while((Lcurr > (L+0.0001)) | (Lcurr < (L-0.0001))):
      self.N = self.N + 0.1*(L-Lcurr)
      Lcurr = np.log10(self.get_luminosity((8,1000)).value)

Lfun N is log10 of the integrated 8-1000 micron luminosity at normalization N
(for the fixed T, beta, z of the instance); none models a non-finite value.
The source loop has no iteration bound, so the embedding takes a fuel
argument and returns none when the fuel is exhausted without the exit
condition holding; on exit it returns the final (N, Lcurr).  When Lfun N is
none the next NumPy iterate is no longer a finite float (L - Lcurr is +inf)
and this rational embedding stops (none): it models exactly the runs whose
iterates keep a finite log-luminosity.  The full IEEE behaviour of the same
loop, in particular its termination with Lcurr = NaN once an iterate makes
the luminosity non-positive, is modelled by initCalibPy below. -/
def initCalib (Lfun : ℚ → Option ℚ) (L : ℚ) : ℕ → ℚ → Option (ℚ × ℚ)
  | 0, N =>
    match Lfun N with
    | some c => if L + 1/10000 < c ∨ c < L - 1/10000 then none else some (N, c)
    | none => none
  | fuel + 1, N =>
    match Lfun N with
    | some c =>
      if L + 1/10000 < c ∨ c < L - 1/10000 then
        initCalib Lfun L fuel (N + (1/10) * (L - c))
      else some (N, c)
    | none => none

/-- ModifiedBlackbody.__init__ (src/mbb.py lines 46-64): stores the
parameters, starts the calibration at N = 11 (line 59), runs the calibration
loop, and stores self.L = np.round(Lcurr, 2) (line 64). -/
def init_mbb (Lfun : ℚ → Option ℚ) (fuel : ℕ) (L T beta z : ℚ)
    (opthin pl : Bool) : Option MBBState :=
  match initCalib Lfun L fuel 11 with
  | some nc => some ⟨some (round2 nc.2), T, beta, z, opthin, pl, nc.1⟩
  | none => none

/-- The calibration while-loop of ModifiedBlackbody.update_L
(src/mbb.py lines 89-92), with tolerance 0.001 and the multiplicative
correction self.N = self.N * (L/Lcurr).  When Lfun N is none (Lcurr = -inf),
NumPy evaluates L/Lcurr as a signed zero and N * (L/Lcurr) as 0, so the loop
continues from N * 0; that branch is modelled exactly.  A run whose Lcurr
becomes NaN (negative luminosity, or a division by an exactly zero Lcurr)
exits the NumPy loop with NaN; such runs are outside this rational
embedding, whose theorems only traverse finite and -inf iterates, where it
is exact. -/
def updateLCalib (Lfun : ℚ → Option ℚ) (L : ℚ) : ℕ → ℚ → Option (ℚ × ℚ)
  | 0, N =>
    match Lfun N with
    | some c => if L + 1/1000 < c ∨ c < L - 1/1000 then none else some (N, c)
    | none => none
  | fuel + 1, N =>
    match Lfun N with
    | some c =>
      if L + 1/1000 < c ∨ c < L - 1/1000 then updateLCalib Lfun L fuel (N * (L / c))
      else some (N, c)
    | none => updateLCalib Lfun L fuel (N * 0)

/-- ModifiedBlackbody.update_L (src/mbb.py lines 85-93): sets T and beta,
recalibrates N multiplicatively, and stores self.L = np.round(Lcurr, 2). -/
def update_L_mbb (Lfun : ℚ → Option ℚ) (fuel : ℕ) (st : MBBState)
    (L T beta : ℚ) : Option MBBState :=
  match updateLCalib Lfun L fuel st.N with
  | some nc => some { st with T := T, beta := beta, N := nc.1, L := some (round2 nc.2) }
  | none => none

/-- ModifiedBlackbody.update (src/mbb.py lines 95-100): sets N, T, beta and
stores self.L = np.log10(self.get_luminosity((8,1000)).value) with no
rounding and no recalibration.  This is also the final parameter update of
fit (line 83, self.update of the posterior medians). -/
def update_mbb (Lfun : ℚ → Option ℚ) (st : MBBState) (N T beta : ℚ) : MBBState :=
  { st with N := N, T := T, beta := beta, L := Lfun N }

/-- ModifiedBlackbody._lnprior (src/mbb.py lines 271-279) on a parameter
vector theta = [N, T] or [N, T, beta]; some 0 models a log-prior of 0.0 and
none models -inf. -/
def lnprior (theta : List ℚ) : Option ℚ :=
  let T := (theta.get? 1).getD 0
  if 10 < T ∧ T < 100 then
    if 2 < theta.length then
      (if 5 < (theta.get? 2).getD 0 ∨ (theta.get? 2).getD 0 < 1/10 then none
       else some 0)
    else some 0
  else none

/-- The chi-squared log-likelihood body of ModifiedBlackbody._lnlike
(src/mbb.py lines 260-269) over an explicit list of photometry points
(wavelength, (flux, uncertainty)); model gives the evaluated model flux at a
wavelength. -/
def lnlike_pts (model : ℚ → ℚ) (pts : List (ℚ × ℚ × ℚ)) : ℚ :=
  -(1/2) * ((pts.map fun p => ((p.2.1 - model p.1) / p.2.2) ^ 2).sum)

/-- ModifiedBlackbody._lnlike (src/mbb.py lines 260-269): the sum runs over
the three aligned arrays self.phot = (x, y, yerr) exactly as stored by fit
(line 72), with no filtering of any kind. -/
def lnlike (model : ℚ → ℚ) (x y yerr : List ℚ) : ℚ :=
  lnlike_pts model (x.zip (y.zip yerr))

/-- The nondetection / invalid-input mask of ModifiedBlackbody.plot_sed
(src/mbb.py lines 162-165): mask = (wl < 0) | (flux < 0) | (err < 0), and
the kept points are the unmasked ones.  This is the only place in the source
where such points are excluded. -/
def filter_phot (x y yerr : List ℚ) : List (ℚ × ℚ × ℚ) :=
  (x.zip (y.zip yerr)).filter fun p => decide (¬(p.1 < 0 ∨ p.2.1 < 0 ∨ p.2.2 < 0))

/-- np.asarray(phot).reshape(3,-1) as used at src/mbb.py line 71: a flat
input of length 3*k becomes a 3-row array; any other length raises
(none). -/
def reshape3 (flat : List ℚ) : Option (List (List ℚ)) :=
  if flat.length % 3 = 0 then
    some [flat.take (flat.length / 3),
          (flat.drop (flat.length / 3)).take (flat.length / 3),
          flat.drop (2 * (flat.length / 3))]
  else none

/-- The initial-vector logic of ModifiedBlackbody.fit
(src/mbb.py lines 73-77):

  init = [self.N, self.T, self.beta]
  if len(phot) < 3:
      init = init[0:2]
  ndim = len(init)

photArr is the array produced by reshape(3,-1), and len(phot) is its number
of rows. -/
def fit_init (N T beta : ℚ) (photArr : List (List ℚ)) : List ℚ :=
  let init := [N, T, beta]
  if photArr.length < 3 then init.take 2 else init

/-- The speed of light in micron per second, exact: 299792458 m/s.  Used for
the wavelength-frequency conversions of _integrate_mbb
(src/mbb.py lines 213-218). -/
def cLightUm : ℚ := 299792458 * 1000000

/-- np.linspace(a, b, n) (src/mbb.py line 215): n evenly spaced points from a
to b inclusive. -/
def linspace (a b : ℚ) (n : ℕ) : List ℚ :=
  (List.range n).map fun i : ℕ => a + (b - a) * (i : ℚ) / ((n : ℚ) - 1)

/-- Modelled from the spec: the spectral model functions (mbb_fun_ot,
mbb_fun_go, ...) live in mbb_model.mbb_funcs, which is not under src/.  Per
spec section 4.1 every variant has flux proportional to Normalization times a
spectral factor of wavelength, so the flux is N * shape(lambda) with an
abstract shape. -/
def fluxModel (shape : ℚ → ℚ) (N lam : ℚ) : ℚ := N * shape lam

/-- The Riemann sum of ModifiedBlackbody._integrate_mbb
(src/mbb.py lines 213-220): a 20000-point linear frequency grid between
c/wllimits[1] and c/wllimits[0], left-endpoint evaluation (lam[:-1], realised
by zipping the 20000 wavelengths with the 19999 bin widths), and the constant
factor K modelling 4*pi*DL^2/(1+z) (DL and pi are external irrational
constants, abstracted as one rational prefactor; the source applies the
factor inside the sum and divides by 1+z outside, which is the same
product). -/
def mbbSum (shape : ℚ → ℚ) (K N wlo whi : ℚ) : ℚ :=
  let nu := linspace (cLightUm / whi) (cLightUm / wlo) 20000
  let dnu := (nu.zip nu.tail).map fun p => p.2 - p.1
  let lam := nu.map fun v => cLightUm / v
  K * ((lam.zip dnu).map fun p => fluxModel shape N p.1 * p.2).sum

/-- ModifiedBlackbody._integrate_mbb (src/mbb.py lines 210-220):

  if len(wllimits) == 2 and wllimits[0] < wllimits[1]:
      ...
      return lum.to(u.Lsun)

When the guard fails the function falls through and implicitly returns
Python None; that silent return is modelled as Option.none. -/
def integrate_mbb (shape : ℚ → ℚ) (K N : ℚ) (wllimits : List ℚ) : Option ℚ :=
  if wllimits.length = 2 ∧ wllimits.getD 0 0 < wllimits.getD 1 0 then
    some (mbbSum shape K N (wllimits.getD 0 0) (wllimits.getD 1 0))
  else none

/-- The N-independent part of the Riemann sum of _integrate_mbb: the sum of
shape(lambda) times the frequency bin width over the 20000-point grid, so
that mbbSum shape K N wlo whi = K * (N * mbbShapeSum shape wlo whi). -/
def mbbShapeSum (shape : ℚ → ℚ) (wlo whi : ℚ) : ℚ :=
  let nu := linspace (cLightUm / whi) (cLightUm / wlo) 20000
  let dnu := (nu.zip nu.tail).map fun p => p.2 - p.1
  (((nu.map fun v => cLightUm / v).zip dnu).map fun p => shape p.1 * p.2).sum

/-- Python f-string rendering of a bool, f-string at src/mbb.py line 107. -/
def boolStr : Bool → String
  | true => "True"
  | false => "False"

/-- The persisted record written by save_state (src/mbb.py lines 102-109):
the four numeric fields already rounded to 4 decimals, and the two variant
flags as the strings produced by the f-string.  The decimal-text round trip
of the numeric fields (str then float) is idealised as the identity. -/
structure SaveRecord where
  Lf : ℚ
  Tf : ℚ
  betaf : ℚ
  zf : ℚ
  opthinf : String
  plf : String

/-- ModifiedBlackbody.save_state (src/mbb.py lines 102-109): writes
np.round(np.log10(get_luminosity().value), 4) - a freshly integrated
luminosity, not the stored self.L - then round4 of T, beta, z, then the two
flags.  A non-finite log-luminosity (none) would write the text of a NumPy
non-finite float; that case is left out of the model (none). -/
def save_state (Lfun : ℚ → Option ℚ) (st : MBBState) : Option SaveRecord :=
  match Lfun st.N with
  | some c => some ⟨round4 c, round4 st.T, round4 st.beta, round4 st.z,
      boolStr st.opthin, boolStr st.pl⟩
  | none => none

/-- ModifiedBlackbody.load_state_from_file (src/mbb.py lines 111-125),
record level: the parsed numeric fields and flag strings are fed to the
constructor path, with opthin and pl set by comparing the flag fields to the
exact string True (lines 121-124).  Lfun is the log-luminosity map of the
reconstructed instance. -/
def load_state (Lfun : ℚ → Option ℚ) (fuel : ℕ) (r : SaveRecord) : Option MBBState :=
  init_mbb Lfun fuel r.Lf r.Tf r.betaf r.zf (r.opthinf == "True") (r.plf == "True")

/-- Helper for splitTab: accumulates the current field and the finished
fields while scanning the characters. -/
def splitTabAux (cur : List Char) (acc : List (List Char)) : List Char → List (List Char)
  | [] => acc ++ [cur]
  | c :: rest =>
    if c = '\t' then splitTabAux [] (acc ++ [cur]) rest
    else splitTabAux (cur ++ [c]) acc rest

/-- Python str.split with separator a single tab, as applied to the second
file line at src/mbb.py line 116: splits on every tab, keeping empty
fields. -/
def splitTab (s : String) : List String :=
  (splitTabAux [] [] s.data).map String.mk

/-- The flag-parsing part of ModifiedBlackbody.load_state_from_file
(src/mbb.py lines 114-124): bits = lines[1].split(tab), then

  if bits[4] == 'True': opthin = True
  else: opthin = False
  if bits[5] == 'True': pl = True
  else: pl = False

A missing line or field raises IndexError in Python, modelled as none. -/
def load_flags (lines : List String) : Option (Bool × Bool) :=
  match lines.get? 1 with
  | none => none
  | some l1 =>
    match (splitTab l1).get? 4, (splitTab l1).get? 5 with
    | some b4, some b5 => some (b4 == "True", b5 == "True")
    | _, _ => none

/-- Sample lines of a persisted state file whose opthin field is misspelled
(Ture), as read by load_state_from_file. -/
def linesW : List String := ["# L    T    beta    z    opthin    pl",
  "12.0\t35.0\t1.8\t2.0\tTure\tTrue\t"]

/-- Modelled from the spec: a sample log-luminosity map for concrete runs,
standing in for the missing mbb_model.mbb_funcs composed with
_integrate_mbb.  It is strictly increasing in N (spec section 4.3) and -inf
(none) for a non-positive normalization. -/
def LfunA : ℚ → Option ℚ := fun N => if N ≤ 0 then none else some (N + 1)

/-- Modelled from the spec: like LfunA but with log-luminosity 12.0049 at the
initial normalization N = 11, exhibiting the effect of the 2-decimal rounding
of the stored Luminosity. -/
def LfunB : ℚ → Option ℚ := fun N => if N ≤ 0 then none else some (N + 10049/10000)

/-- The constant-zero model, used for concrete likelihood evaluations. -/
def model0 : ℚ → ℚ := fun _ => 0

/-- A sample converged instance: the state produced by the constructor with
target log-luminosity 12, T = 50, beta = 1.8, z = 2 under LfunA. -/
def stA : MBBState := ⟨some 12, 50, 9/5, 2, true, false, 11⟩

/-- A sample pre-update state used as the receiver of update_L runs. -/
def stX : MBBState := ⟨some 12, 35, 2, 2, true, false, 11⟩

/-- A state with 4-decimal parameter values, so that save followed by load
reproduces it. -/
def stB : MBBState := ⟨some 12, 35, 9/5, 2, true, false, 11⟩

/-- The record save_state writes for stB under LfunA. -/
def recA : SaveRecord := ⟨12, 35, 9/5, 2, "True", "False"⟩

/-- A state whose Temperature 1/3 has no finite 4-decimal representation and
whose stored Luminosity 12.0049 came from update (exact, unrounded). -/
def stC : MBBState := ⟨some (120049/10000), 1/3, 9/5, 2, true, false, 11⟩

/-- The record save_state writes for stC under LfunB: T is rounded to
0.3333. -/
def recC : SaveRecord := ⟨120049/10000, 3333/10000, 9/5, 2, "True", "False"⟩

/-- The state load_state reconstructs from recC under LfunB: T is the
rounded 0.3333 and the stored Luminosity is np.round(12.0049, 2) = 12. -/
def stD : MBBState := ⟨some 12, 3333/10000, 9/5, 2, true, false, 11⟩

/-- A NumPy double as the calibration loop sees it: a finite value (exact
rational idealisation), +inf, -inf, or NaN. -/
inductive PyF where
  | fin (q : ℚ)
  | pinf
  | ninf
  | nan
deriving DecidableEq

/-- IEEE subtraction L - c for a finite float L (the target log-luminosity
of the constructor, always a finite input). -/
def pySub (L : ℚ) : PyF → PyF
  | .fin q => .fin (L - q)
  | .pinf => .ninf
  | .ninf => .pinf
  | .nan => .nan

/-- IEEE multiplication by the positive constant 0.1 (src/mbb.py line 62). -/
def pyScaleTenth : PyF → PyF
  | .fin q => .fin (q / 10)
  | .pinf => .pinf
  | .ninf => .ninf
  | .nan => .nan

/-- IEEE addition; inf plus the opposite inf is NaN. -/
def pyAdd : PyF → PyF → PyF
  | .nan, _ => .nan
  | _, .nan => .nan
  | .fin a, .fin b => .fin (a + b)
  | .fin _, .pinf => .pinf
  | .fin _, .ninf => .ninf
  | .pinf, .fin _ => .pinf
  | .ninf, .fin _ => .ninf
  | .pinf, .pinf => .pinf
  | .ninf, .ninf => .ninf
  | .pinf, .ninf => .nan
  | .ninf, .pinf => .nan

/-- The while-loop condition (Lcurr > L+tol) | (Lcurr < L-tol) of
src/mbb.py line 61 under IEEE comparison semantics: every comparison with
NaN is False, so a NaN Lcurr exits the loop. -/
def outTol (L tol : ℚ) : PyF → Bool
  | .fin q => decide (L + tol < q) || decide (q < L - tol)
  | .pinf => true
  | .ninf => true
  | .nan => false

/-- The calibration while-loop of ModifiedBlackbody.__init__
(src/mbb.py lines 60-63) over the float domain PyF, with the IEEE semantics
of the comparisons and of the correction N + 0.1*(L - Lcurr).  Lfun maps the
current normalization to np.log10 of the integrated luminosity: NaN for a
negative luminosity (or NaN inputs), -inf for a zero luminosity - which at
z = 0 (luminosity distance 0) is every input.  The loop exits either with a
finite Lcurr inside the tolerance band or with Lcurr = NaN; a fuel bound
stands in for the missing iteration cap as in initCalib. -/
def initCalibPy (Lfun : PyF → PyF) (L : ℚ) : ℕ → PyF → Option (PyF × PyF)
  | 0, N =>
    if outTol L (1/10000) (Lfun N) then none else some (N, Lfun N)
  | fuel + 1, N =>
    if outTol L (1/10000) (Lfun N) then
      initCalibPy Lfun L fuel (pyAdd N (pyScaleTenth (pySub L (Lfun N))))
    else some (N, Lfun N)

/-- Modelled from the spec: a sample log-luminosity map over the float
domain, standing in for the missing mbb_model.mbb_funcs composed with
_integrate_mbb and np.log10.  Flux is proportional to N (spec section 4.1),
so a positive normalization gives a finite log-luminosity (increasing in N),
zero gives log10(0) = -inf, a negative one gives log10 of a negative number,
NaN, and non-finite normalizations propagate accordingly. -/
def LfunP : PyF → PyF
  | .fin q => if q = 0 then .ninf else if q < 0 then .nan else .fin (q + 1)
  | .pinf => .pinf
  | .ninf => .nan
  | .nan => .nan

theorem round2_close (x : ℚ) : |round2 x - x| ≤ 1 / 200 := by
  have hr : (⌊100 * x + 1/2⌋ : ℤ) = round (100 * x) := (round_eq (100 * x)).symm
  have h := abs_sub_round (100 * x)
  rw [abs_sub_comm] at h
  have h2 : |round2 x - x| = |(round (100 * x) : ℚ) - 100 * x| / 100 := by
    rw [round2, hr, ← abs_of_pos (show (0:ℚ) < 100 by norm_num), ← abs_div]
    congr 1
    field_simp
  rw [h2]
  linarith

theorem round4_close (x : ℚ) : |round4 x - x| ≤ 1 / 20000 := by
  have hr : (⌊10000 * x + 1/2⌋ : ℤ) = round (10000 * x) := (round_eq (10000 * x)).symm
  have h := abs_sub_round (10000 * x)
  rw [abs_sub_comm] at h
  have h2 : |round4 x - x| = |(round (10000 * x) : ℚ) - 10000 * x| / 10000 := by
    rw [round4, hr, ← abs_of_pos (show (0:ℚ) < 10000 by norm_num), ← abs_div]
    congr 1
    field_simp
  rw [h2]
  linarith

theorem boolStr_beq (b : Bool) : (boolStr b == "True") = b := by
  cases b <;> decide

theorem initCalib_sound (Lfun : ℚ → Option ℚ) (L : ℚ) :
    ∀ (fuel : ℕ) (N0 Nf c : ℚ), initCalib Lfun L fuel N0 = some (Nf, c) →
      Lfun Nf = some c ∧ |c - L| ≤ 1/10000 := by
  intro fuel
  induction fuel with
  | zero =>
    intro N0 Nf c h
    rw [initCalib] at h
    split at h
    next c0 hL =>
      split at h
      next hc => simp at h
      next hc =>
        simp only [Option.some.injEq, Prod.mk.injEq] at h
        obtain ⟨h1, h2⟩ := h
        subst h1
        subst h2
        push_neg at hc
        exact ⟨hL, abs_sub_le_iff.mpr ⟨by linarith [hc.1], by linarith [hc.2]⟩⟩
    next hL => simp at h
  | succ fuel ih =>
    intro N0 Nf c h
    rw [initCalib] at h
    split at h
    next c0 hL =>
      split at h
      next hc => exact ih _ _ _ h
      next hc =>
        simp only [Option.some.injEq, Prod.mk.injEq] at h
        obtain ⟨h1, h2⟩ := h
        subst h1
        subst h2
        push_neg at hc
        exact ⟨hL, abs_sub_le_iff.mpr ⟨by linarith [hc.1], by linarith [hc.2]⟩⟩
    next hL => simp at h

theorem updateLCalib_sound (Lfun : ℚ → Option ℚ) (L : ℚ) :
    ∀ (fuel : ℕ) (N0 Nf c : ℚ), updateLCalib Lfun L fuel N0 = some (Nf, c) →
      Lfun Nf = some c ∧ |c - L| ≤ 1/1000 := by
  intro fuel
  induction fuel with
  | zero =>
    intro N0 Nf c h
    rw [updateLCalib] at h
    split at h
    next c0 hL =>
      split at h
      next hc => simp at h
      next hc =>
        simp only [Option.some.injEq, Prod.mk.injEq] at h
        obtain ⟨h1, h2⟩ := h
        subst h1
        subst h2
        push_neg at hc
        exact ⟨hL, abs_sub_le_iff.mpr ⟨by linarith [hc.1], by linarith [hc.2]⟩⟩
    next hL => simp at h
  | succ fuel ih =>
    intro N0 Nf c h
    rw [updateLCalib] at h
    split at h
    next c0 hL =>
      split at h
      next hc => exact ih _ _ _ h
      next hc =>
        simp only [Option.some.injEq, Prod.mk.injEq] at h
        obtain ⟨h1, h2⟩ := h
        subst h1
        subst h2
        push_neg at hc
        exact ⟨hL, abs_sub_le_iff.mpr ⟨by linarith [hc.1], by linarith [hc.2]⟩⟩
    next hL => exact ih _ _ _ h

theorem init_mbb_sound (Lfun : ℚ → Option ℚ) (fuel : ℕ) (L T beta z : ℚ)
    (o p : Bool) (st : MBBState) (h : init_mbb Lfun fuel L T beta z o p = some st) :
    st.T = T ∧ st.beta = beta ∧ st.z = z ∧ st.opthin = o ∧ st.pl = p ∧
    ∃ c, Lfun st.N = some c ∧ st.L = some (round2 c) ∧ |c - L| ≤ 1/10000 := by
  rw [init_mbb] at h
  split at h
  next nc hC =>
    simp only [Option.some.injEq] at h
    subst h
    obtain ⟨h1, h2⟩ := initCalib_sound Lfun L fuel 11 nc.1 nc.2 (by rw [hC])
    exact ⟨rfl, rfl, rfl, rfl, rfl, nc.2, h1, rfl, h2⟩
  next hC => simp at h

theorem update_L_mbb_sound (Lfun : ℚ → Option ℚ) (fuel : ℕ) (st : MBBState)
    (L T beta : ℚ) (st2 : MBBState)
    (h : update_L_mbb Lfun fuel st L T beta = some st2) :
    st2.T = T ∧ st2.beta = beta ∧ st2.z = st.z ∧ st2.opthin = st.opthin ∧
    st2.pl = st.pl ∧
    ∃ c, Lfun st2.N = some c ∧ st2.L = some (round2 c) ∧ |c - L| ≤ 1/1000 := by
  rw [update_L_mbb] at h
  split at h
  next nc hC =>
    simp only [Option.some.injEq] at h
    subst h
    obtain ⟨h1, h2⟩ := updateLCalib_sound Lfun L fuel st.N nc.1 nc.2 (by rw [hC])
    exact ⟨rfl, rfl, rfl, rfl, rfl, nc.2, h1, rfl, h2⟩
  next hC => simp at h

theorem runA : init_mbb LfunA 1 12 50 (9/5) 2 true false = some stA := by
  rw [init_mbb, initCalib, LfunA]
  norm_num [round2, stA]

/-- C1 (corrected): after construction and after update_L the stored
Luminosity attribute self.L holds the 2-decimal rounding np.round(Lcurr, 2)
of log10 of the integrated 8-1000 micron luminosity of the current
parameters - so it agrees with that integral only to within 1/200, not to
within the calibration tolerance - while after update (and the final
parameter update of fit, which calls update) it equals that log-luminosity
exactly. -/
theorem stored_luminosity_rounding :
    (∀ (Lfun : ℚ → Option ℚ) (fuel : ℕ) (L T beta z : ℚ) (o p : Bool)
        (st : MBBState),
        init_mbb Lfun fuel L T beta z o p = some st →
        ∃ c, Lfun st.N = some c ∧ st.L = some (round2 c) ∧
          |round2 c - c| ≤ 1/200) ∧
    (∀ (Lfun : ℚ → Option ℚ) (fuel : ℕ) (st : MBBState) (L T beta : ℚ)
        (st2 : MBBState),
        update_L_mbb Lfun fuel st L T beta = some st2 →
        ∃ c, Lfun st2.N = some c ∧ st2.L = some (round2 c) ∧
          |round2 c - c| ≤ 1/200) ∧
    (∀ (Lfun : ℚ → Option ℚ) (st : MBBState) (N T beta : ℚ),
        (update_mbb Lfun st N T beta).L = Lfun N ∧
          (update_mbb Lfun st N T beta).N = N) := by
  refine ⟨?_, ?_, ?_⟩
  · intro Lfun fuel L T beta z o p st h
    obtain ⟨-, -, -, -, -, c, h1, h2, -⟩ := init_mbb_sound Lfun fuel L T beta z o p st h
    exact ⟨c, h1, h2, round2_close c⟩
  · intro Lfun fuel st L T beta st2 h
    obtain ⟨-, -, -, -, -, c, h1, h2, -⟩ := update_L_mbb_sound Lfun fuel st L T beta st2 h
    exact ⟨c, h1, h2, round2_close c⟩
  · intro Lfun st N T beta
    exact ⟨rfl, rfl⟩

theorem stored_luminosity_rounding_witness :
    init_mbb LfunA 1 12 50 (9/5) 2 true false = some stA ∧
    (∃ c, LfunA stA.N = some c ∧ stA.L = some (round2 c) ∧
      |round2 c - c| ≤ 1/200) :=
  ⟨runA, stored_luminosity_rounding.1 LfunA 1 12 50 (9/5) 2 true false stA runA⟩

/-- C1 counterexample: a terminating update_L run with target log-luminosity
12.0049.  The loop exits immediately (the current log-luminosity equals the
target), yet the stored self.L is np.round(12.0049, 2) = 12.00, which is
0.0049 dex away from the integrated log-luminosity of the resulting
parameters - more than the 0.001 calibration tolerance of update_L (and a
fortiori more than the 0.0001 tolerance of the constructor). -/
theorem stored_luminosity_tolerance_cex :
    update_L_mbb LfunB 1 stX (120049/10000) 50 (9/5) = some stA ∧
    LfunB stA.N = some (120049/10000) ∧ stA.L = some 12 ∧
    ¬(|(12 : ℚ) - 120049/10000| ≤ 1/1000) := by
  refine ⟨?_, ?_, rfl, ?_⟩
  · rw [update_L_mbb, updateLCalib, LfunB, stX]
    norm_num [round2, stA]
  · rw [LfunB]
    norm_num [stA]
  · rw [not_le, show (12 : ℚ) - 120049/10000 = -(49/10000) by norm_num, abs_neg,
      abs_of_pos (show (0:ℚ) < 49/10000 by norm_num)]
    norm_num

theorem updateLCalib_stuck (Lfun : ℚ → Option ℚ) (L : ℚ) (h0 : Lfun 0 = none) :
    ∀ fuel, updateLCalib Lfun L fuel 0 = none := by
  intro fuel
  induction fuel with
  | zero => rw [updateLCalib, h0]
  | succ n ih =>
    rw [updateLCalib, h0, zero_mul]
    exact ih

/-- C3 (code_bug): the calibration loops have no iteration cap and no
non-convergence error.  For the update_L loop this is observable: with
target log-luminosity L = 0 and any starting normalization whose
log-luminosity exceeds the tolerance band, the first correction
N * (L/Lcurr) sets N to 0, after which the luminosity is 0, Lcurr is -inf,
and the loop runs forever; no amount of fuel makes it exit. -/
theorem update_L_loop_unbounded (Lfun : ℚ → Option ℚ) (N0 c0 : ℚ)
    (h0 : Lfun 0 = none) (hN0 : Lfun N0 = some c0) (hc : 1/1000 < c0) :
    ∀ fuel, updateLCalib Lfun 0 fuel N0 = none := by
  intro fuel
  cases fuel with
  | zero =>
    simp only [updateLCalib, hN0]
    rw [if_pos (Or.inl (by linarith))]
  | succ n =>
    simp only [updateLCalib, hN0]
    rw [if_pos (Or.inl (by linarith)), zero_div, mul_zero]
    exact updateLCalib_stuck Lfun 0 h0 n

theorem update_L_loop_unbounded_witness :
    LfunA 0 = none ∧ LfunA 1 = some 2 ∧ ((1:ℚ)/1000 < 2) ∧
    updateLCalib LfunA 0 1000 1 = none :=
  ⟨by norm_num [LfunA], by norm_num [LfunA], by norm_num,
   update_L_loop_unbounded LfunA 1 2 (by norm_num [LfunA])
     (by norm_num [LfunA]) (by norm_num) 1000⟩

theorem outTol_false_cases (L tol : ℚ) (c : PyF) (h : outTol L tol c = false) :
    c = PyF.nan ∨ ∃ q, c = PyF.fin q ∧ |q - L| ≤ tol := by
  cases c with
  | fin q =>
    right
    refine ⟨q, rfl, ?_⟩
    simp only [outTol, Bool.or_eq_false_iff, decide_eq_false_iff_not, not_lt] at h
    exact abs_sub_le_iff.mpr ⟨by linarith [h.1], by linarith [h.2]⟩
  | pinf => simp [outTol] at h
  | ninf => simp [outTol] at h
  | nan => exact Or.inl rfl

/-- The rational loop initCalib is the finite-value fragment of the IEEE
loop initCalibPy: any run of initCalib that converges is reproduced, step
for step, by initCalibPy under any float log-luminosity map that agrees
with Lfun on finite values. -/
theorem initCalibPy_refines (Lfun : ℚ → Option ℚ) (LfunF : PyF → PyF)
    (hagree : ∀ q c, Lfun q = some c → LfunF (.fin q) = .fin c) (L : ℚ) :
    ∀ (fuel : ℕ) (N Nf c : ℚ), initCalib Lfun L fuel N = some (Nf, c) →
      initCalibPy LfunF L fuel (.fin N) = some (.fin Nf, .fin c) := by
  intro fuel
  induction fuel with
  | zero =>
    intro N Nf c h
    rw [initCalib] at h
    split at h
    next c0 hL =>
      split at h
      next hc => simp at h
      next hc =>
        simp only [Option.some.injEq, Prod.mk.injEq] at h
        obtain ⟨h1, h2⟩ := h
        subst h1
        subst h2
        push_neg at hc
        have hout : outTol L (1/10000) (LfunF (.fin N)) = false := by
          rw [hagree _ _ hL]
          simp only [outTol, Bool.or_eq_false_iff, decide_eq_false_iff_not, not_lt]
          exact ⟨hc.1, hc.2⟩
        rw [initCalibPy, hout, hagree _ _ hL]
        simp
    next hL => simp at h
  | succ fuel ih =>
    intro N Nf c h
    rw [initCalib] at h
    split at h
    next c0 hL =>
      split at h
      next hc =>
        have hout : outTol L (1/10000) (LfunF (.fin N)) = true := by
          rw [hagree _ _ hL]
          simp only [outTol, Bool.or_eq_true, decide_eq_true_eq]
          exact hc
        rw [initCalibPy, hout, hagree _ _ hL]
        have harg : pyAdd (.fin N) (pyScaleTenth (pySub L (.fin c0))) =
            PyF.fin (N + (1/10) * (L - c0)) := by
          simp only [pySub, pyScaleTenth, pyAdd, PyF.fin.injEq]
          ring
        rw [harg]
        exact ih _ _ _ h
      next hc =>
        simp only [Option.some.injEq, Prod.mk.injEq] at h
        obtain ⟨h1, h2⟩ := h
        subst h1
        subst h2
        push_neg at hc
        have hout : outTol L (1/10000) (LfunF (.fin N)) = false := by
          rw [hagree _ _ hL]
          simp only [outTol, Bool.or_eq_false_iff, decide_eq_false_iff_not, not_lt]
          exact ⟨hc.1, hc.2⟩
        rw [initCalibPy, hout, hagree _ _ hL]
        simp
    next hL => simp at h

theorem runP : initCalibPy LfunP 12 1 (.fin 11) = some (.fin 11, .fin 12) := by
  rw [initCalibPy]
  norm_num [LfunP, outTol]

/-- C4 counterexample: a run of the constructor loop that terminates
without recovering the target.  With target log-luminosity -200 and initial
log-luminosity 12 at N = 11, the first correction N + 0.1*(L - Lcurr) drives
N to -10.2, the luminosity of the spec-modelled flux (proportional to N)
becomes negative, np.log10 of it is NaN, and the IEEE while condition
(NaN > a) | (NaN < b) is False: the loop exits after one iteration with
Lcurr = NaN, and no finite log-luminosity within 1e-3 dex of the target
exists for the resulting model. -/
theorem init_calibration_nan_exit_cex :
    initCalibPy LfunP (-200) 1 (.fin 11) = some (.fin (-51/5), .nan) ∧
    LfunP (.fin (-51/5)) = PyF.nan ∧
    ¬ ∃ q : ℚ, LfunP (.fin (-51/5)) = PyF.fin q ∧ |q - (-200)| ≤ 1/1000 := by
  refine ⟨?_, ?_, ?_⟩
  · rw [initCalibPy]
    norm_num [LfunP, outTol, pySub, pyScaleTenth, pyAdd]
    rw [initCalibPy]
    norm_num [LfunP, outTol]
  · norm_num [LfunP]
  · rintro ⟨q, hq, -⟩
    norm_num [LfunP] at hq
    exact PyF.noConfusion hq

/-- C4 (corrected): whenever the constructor calibration loop terminates,
the exit log-luminosity Lcurr (which equals the log-luminosity of the
resulting normalization) is either finite and within the exit tolerance
1e-4 - hence within 1e-3 dex - of the requested target, or it is NaN: the
IEEE loop also terminates when an iterate makes the integrated luminosity
non-positive (an extreme target driving N negative, or z = 0 where the
luminosity distance vanishes), and such runs recover nothing. -/
theorem init_calibration_tolerance (Lfun : PyF → PyF) (L : ℚ) :
    ∀ (fuel : ℕ) (N0 Nf c : PyF), initCalibPy Lfun L fuel N0 = some (Nf, c) →
      Lfun Nf = c ∧
        (c = PyF.nan ∨ ∃ q, c = PyF.fin q ∧ |q - L| ≤ 1/1000) := by
  intro fuel
  induction fuel with
  | zero =>
    intro N0 Nf c h
    rw [initCalibPy] at h
    split at h
    next hc => simp at h
    next hc =>
      simp only [Option.some.injEq, Prod.mk.injEq] at h
      obtain ⟨h1, h2⟩ := h
      subst h1
      subst h2
      rw [Bool.not_eq_true] at hc
      rcases outTol_false_cases L (1/10000) (Lfun N0) hc with hn | ⟨q, hq, hb⟩
      · exact ⟨rfl, Or.inl hn⟩
      · exact ⟨rfl, Or.inr ⟨q, hq, le_trans hb (by norm_num)⟩⟩
  | succ fuel ih =>
    intro N0 Nf c h
    rw [initCalibPy] at h
    split at h
    next hc => exact ih _ _ _ h
    next hc =>
      simp only [Option.some.injEq, Prod.mk.injEq] at h
      obtain ⟨h1, h2⟩ := h
      subst h1
      subst h2
      rw [Bool.not_eq_true] at hc
      rcases outTol_false_cases L (1/10000) (Lfun N0) hc with hn | ⟨q, hq, hb⟩
      · exact ⟨rfl, Or.inl hn⟩
      · exact ⟨rfl, Or.inr ⟨q, hq, le_trans hb (by norm_num)⟩⟩

theorem init_calibration_tolerance_witness :
    initCalibPy LfunP 12 1 (.fin 11) = some (.fin 11, .fin 12) ∧
    (LfunP (.fin 11) = PyF.fin 12 ∧
      ((PyF.fin 12 : PyF) = PyF.nan ∨
        ∃ q, (PyF.fin 12 : PyF) = PyF.fin q ∧ |q - (12:ℚ)| ≤ 1/1000)) :=
  ⟨runP, init_calibration_tolerance LfunP 12 1 (.fin 11) (.fin 11) (.fin 12) runP⟩

theorem runSaveB : save_state LfunA stB = some recA := by
  rw [save_state, LfunA]
  norm_num [stB, recA, round4, boolStr]

theorem runLoadB : load_state LfunA 1 recA = some stB := by
  have h1 : (("True" == "True") : Bool) = true := by decide
  have h2 : (("False" == "True") : Bool) = false := by decide
  rw [load_state, recA]
  simp only [h1, h2]
  rw [init_mbb, initCalib, LfunA]
  norm_num [round2, stB]

/-- C5 (corrected): save followed by load reproduces the variant flags
exactly, reproduces Temperature, EmissivityIndex and redshift only up to
4-decimal rounding (save_state writes np.round(., 4)), and produces a stored
Luminosity equal to the 2-decimal rounding of the recalibrated
log-luminosity, which is within 1/200 + 1/10000 + 1/20000 = 103/20000 dex of
the log10 integrated luminosity of the original instance - not within
1e-3. -/
theorem save_load_roundtrip (Lfun Lfun2 : ℚ → Option ℚ) (fuel : ℕ)
    (st st2 : MBBState) (r : SaveRecord)
    (hs : save_state Lfun st = some r) (hl : load_state Lfun2 fuel r = some st2) :
    st2.T = round4 st.T ∧ st2.beta = round4 st.beta ∧ st2.z = round4 st.z ∧
    st2.opthin = st.opthin ∧ st2.pl = st.pl ∧
    ∃ c c2, Lfun st.N = some c ∧ Lfun2 st2.N = some c2 ∧
      st2.L = some (round2 c2) ∧ |round2 c2 - c| ≤ 103/20000 := by
  rw [save_state] at hs
  split at hs
  next c hL =>
    simp only [Option.some.injEq] at hs
    subst hs
    rw [load_state] at hl
    obtain ⟨hT, hbeta, hz, ho, hp, c2, h1, h2, h3⟩ :=
      init_mbb_sound _ _ _ _ _ _ _ _ _ hl
    refine ⟨hT, hbeta, hz, by rw [ho, boolStr_beq], by rw [hp, boolStr_beq],
      c, c2, hL, h1, h2, ?_⟩
    have hA := abs_le.mp (round2_close c2)
    have hB := abs_le.mp h3
    have hC := abs_le.mp (round4_close c)
    rw [abs_le]
    constructor <;> simp only [neg_le_sub_iff_le_add] at * <;> linarith
  next hL => simp at hs

theorem save_load_roundtrip_witness :
    save_state LfunA stB = some recA ∧ load_state LfunA 1 recA = some stB ∧
    (stB.T = round4 stB.T ∧ stB.beta = round4 stB.beta ∧
     stB.z = round4 stB.z ∧ stB.opthin = stB.opthin ∧ stB.pl = stB.pl ∧
     ∃ c c2, LfunA stB.N = some c ∧ LfunA stB.N = some c2 ∧
       stB.L = some (round2 c2) ∧ |round2 c2 - c| ≤ 103/20000) :=
  ⟨runSaveB, runLoadB,
   save_load_roundtrip LfunA LfunA 1 stB stB recA runSaveB runLoadB⟩

/-- C5 counterexample: the state stC (T = 1/3, stored Luminosity 12.0049 set
exactly by update) saves to recC and loads back as stD, whose Temperature
0.3333 differs from 1/3 and whose Luminosity 12.00 differs from the original
12.0049 by more than 1e-3 dex. -/
theorem save_load_roundtrip_cex :
    save_state LfunB stC = some recC ∧ load_state LfunB 1 recC = some stD ∧
    stD.T ≠ stC.T ∧ stC.L = some (120049/10000) ∧ stD.L = some 12 ∧
    ¬(|(12 : ℚ) - 120049/10000| ≤ 1/1000) := by
  refine ⟨?_, ?_, ?_, rfl, rfl, ?_⟩
  · rw [save_state, LfunB]
    norm_num [stC, recC, round4, boolStr]
  · have h1 : (("True" == "True") : Bool) = true := by decide
    have h2 : (("False" == "True") : Bool) = false := by decide
    rw [load_state, recC]
    simp only [h1, h2]
    rw [init_mbb, initCalib, LfunB]
    norm_num [round2, stD]
  · rw [stC, stD]
    norm_num
  · rw [not_le, show (12 : ℚ) - 120049/10000 = -(49/10000) by norm_num, abs_neg,
      abs_of_pos (show (0:ℚ) < 49/10000 by norm_num)]
    norm_num

/-- C2 counterexample: _lnprior accepts the beta boundary values exactly.
The guard is (beta > 5.0 or beta < 0.1), so beta = 0.1 and beta = 5.0 fall
through to return 0.0, where the claim demands negative infinity. -/
theorem lnprior_beta_boundary_cex :
    lnprior [11, 50, 1/10] = some 0 ∧ lnprior [11, 50, 5] = some 0 := by
  have hg1 : ([11, 50, (1:ℚ)/10] : List ℚ).get? 1 = some 50 := rfl
  have hg2 : ([11, 50, (1:ℚ)/10] : List ℚ).get? 2 = some (1/10) := rfl
  have hg3 : ([11, 50, (5:ℚ)] : List ℚ).get? 1 = some 50 := rfl
  have hg4 : ([11, 50, (5:ℚ)] : List ℚ).get? 2 = some 5 := rfl
  constructor
  · simp only [lnprior, hg1, hg2, Option.getD_some]
    norm_num
  · simp only [lnprior, hg3, hg4, Option.getD_some]
    norm_num

/-- C2 (corrected): the log-prior is 0.0 exactly when Temperature lies
strictly inside (10, 100) and, when an EmissivityIndex component is present,
EmissivityIndex lies in the closed interval from 0.1 to 5.0 (the boundary
values 0.1 and 5.0 are accepted); otherwise it is negative infinity.
Temperature exactly 10 or 100 still yields negative infinity. -/
theorem lnprior_ranges :
    (∀ (theta : List ℚ) (T : ℚ), theta.get? 1 = some T → theta.length ≤ 2 →
        lnprior theta = if 10 < T ∧ T < 100 then some 0 else none) ∧
    (∀ (theta : List ℚ) (T beta : ℚ), theta.get? 1 = some T →
        theta.get? 2 = some beta →
        lnprior theta =
          if 10 < T ∧ T < 100 ∧ 1/10 ≤ beta ∧ beta ≤ 5 then some 0 else none) := by
  constructor
  · intro theta T h hlen
    simp only [lnprior, h, Option.getD_some]
    by_cases hT : 10 < T ∧ T < 100
    · rw [if_pos hT, if_pos hT, if_neg (by omega)]
    · rw [if_neg hT, if_neg hT]
  · intro theta T beta h1 h2
    have hlen : 2 < theta.length := (List.get?_eq_some.mp h2).1
    simp only [lnprior, h1, h2, Option.getD_some]
    by_cases hT : 10 < T ∧ T < 100
    · rw [if_pos hT, if_pos hlen]
      by_cases hb : 5 < beta ∨ beta < 1/10
      · rw [if_pos hb, if_neg]
        rintro ⟨-, -, hb1, hb2⟩
        rcases hb with h5 | h5 <;> linarith
      · push_neg at hb
        rw [if_neg (by push_neg; exact hb), if_pos ⟨hT.1, hT.2, hb.2, hb.1⟩]
    · rw [if_neg hT, if_neg (fun hcon => hT ⟨hcon.1, hcon.2.1⟩)]

theorem lnprior_ranges_witness :
    ([11, 50, (1:ℚ)/10] : List ℚ).get? 1 = some 50 ∧
    ([11, 50, (1:ℚ)/10] : List ℚ).get? 2 = some (1/10) ∧
    lnprior [11, 50, 1/10] =
      (if 10 < (50:ℚ) ∧ (50:ℚ) < 100 ∧ 1/10 ≤ (1:ℚ)/10 ∧ (1:ℚ)/10 ≤ 5 then
        some 0 else none) :=
  ⟨rfl, rfl, lnprior_ranges.2 [11, 50, 1/10] 50 (1/10) rfl rfl⟩

/-- C6 counterexample: the likelihood is not computed over the filtered
photometry.  For the two-point photometry (10, 20), (1, -1), (1, 1) - whose
second point has negative flux - _lnlike sums over both points (chi-squared
2, log-likelihood -1), while the plot_sed mask would keep only the first
point (log-likelihood -1/2). -/
theorem lnlike_filtering_cex :
    lnlike model0 [10, 20] [1, -1] [1, 1] ≠
      lnlike_pts model0 (filter_phot [10, 20] [1, -1] [1, 1]) := by
  norm_num [lnlike, lnlike_pts, filter_phot, model0, List.zip_cons_cons,
    List.filter, List.zip_nil_right]

/-- C6 (corrected): points with negative wavelength, flux, or uncertainty
are excluded only by the plotting mask of plot_sed; the likelihood used by
fit sums over every supplied point, so each appended point - valid or not -
shifts the log-likelihood by its chi-squared term.  The first conjunct
characterises exactly which points the plot_sed mask keeps; the second shows
the likelihood never drops a point. -/
theorem lnlike_no_filtering :
    (∀ (x y yerr : List ℚ) (p : ℚ × ℚ × ℚ),
        p ∈ filter_phot x y yerr ↔
          p ∈ x.zip (y.zip yerr) ∧ ¬(p.1 < 0 ∨ p.2.1 < 0 ∨ p.2.2 < 0)) ∧
    (∀ (model : ℚ → ℚ) (pts : List (ℚ × ℚ × ℚ)) (q : ℚ × ℚ × ℚ),
        lnlike_pts model (pts ++ [q]) =
          lnlike_pts model pts - (1/2) * ((q.2.1 - model q.1) / q.2.2) ^ 2) := by
  constructor
  · intro x y yerr p
    simp [filter_phot, List.mem_filter]
  · intro model pts q
    simp only [lnlike_pts, List.map_append, List.sum_append, List.map_cons,
      List.map_nil, List.sum_cons, List.sum_nil]
    ring

theorem lnlike_no_filtering_witness :
    lnlike_pts model0 ([((10:ℚ), (1:ℚ), (1:ℚ))] ++ [((20:ℚ), (-1:ℚ), (1:ℚ))]) =
      lnlike_pts model0 [((10:ℚ), (1:ℚ), (1:ℚ))] -
        (1/2) * ((((-1:ℚ)) - model0 20) / 1) ^ 2 :=
  lnlike_no_filtering.2 model0 [(10, 1, 1)] (20, -1, 1)

/-- C7 (code_bug): fit reshapes the photometry to a 3-row array and then
tests len(phot) < 3 on that array, whose length is always 3.  So the branch
dropping EmissivityIndex is dead and the sampled dimensionality is 3 even
when fewer than 3 photometric points are fit: for the 2-point photometry
below, the claim requires dimensionality 2, but the code produces 3. -/
theorem fit_ndim_always_three :
    (∀ (N T beta : ℚ) (flat : List ℚ) (ps : List (List ℚ)),
        reshape3 flat = some ps → (fit_init N T beta ps).length = 3) ∧
    reshape3 [250, 350, 1, 2, 1/10, 1/10] =
      some [[250, 350], [1, 2], [1/10, 1/10]] ∧
    (([250, 350] : List ℚ).length = 2) ∧
    (fit_init 11 35 (9/5) [[250, 350], [1, 2], [1/10, 1/10]]).length = 3 := by
  refine ⟨?_, rfl, rfl, rfl⟩
  intro N T beta flat ps h
  rw [reshape3] at h
  split at h
  next hc =>
    simp only [Option.some.injEq] at h
    subst h
    rw [fit_init]
    norm_num
  next hc => simp at h

theorem fit_ndim_always_three_witness :
    reshape3 [250, 350, 1, 2, (1:ℚ)/10, 1/10] =
      some [[250, 350], [1, 2], [1/10, 1/10]] ∧
    (fit_init 11 35 (9/5) [[250, 350], [1, 2], [(1:ℚ)/10, 1/10]]).length = 3 :=
  ⟨rfl, fit_ndim_always_three.1 11 35 (9/5) [250, 350, 1, 2, 1/10, 1/10]
    [[250, 350], [1, 2], [1/10, 1/10]] rfl⟩

theorem mbbSum_factor (shape : ℚ → ℚ) (K N wlo whi : ℚ) :
    mbbSum shape K N wlo whi = K * (N * mbbShapeSum shape wlo whi) := by
  simp only [mbbSum, mbbShapeSum, fluxModel, mul_assoc]
  rw [List.sum_map_mul_left]

theorem pairwise_diff_sum_nonneg (s : ℚ → ℚ) (hs : ∀ x, 0 ≤ s x) :
    ∀ l : List ℚ, List.Pairwise (· < ·) l →
      0 ≤ ((l.zip ((l.zip l.tail).map fun p => p.2 - p.1)).map
        fun p => s p.1 * p.2).sum
  | [], _ => by simp
  | [a], _ => by simp
  | a :: b :: t, h => by
    rw [List.pairwise_cons] at h
    have hab : a < b := h.1 b (by simp)
    have ih := pairwise_diff_sum_nonneg s hs (b :: t) h.2
    simp only [List.tail_cons] at ih ⊢
    simp only [List.zip_cons_cons, List.map_cons, List.sum_cons]
    have h1 : 0 ≤ s a * (b - a) := mul_nonneg (hs a) (by linarith)
    linarith [ih]

theorem pairwise_diff_sum_pos (s : ℚ → ℚ) (hs : ∀ x, 0 < s x) :
    ∀ l : List ℚ, List.Pairwise (· < ·) l → 2 ≤ l.length →
      0 < ((l.zip ((l.zip l.tail).map fun p => p.2 - p.1)).map
        fun p => s p.1 * p.2).sum
  | [], _, hlen => by simp at hlen
  | [a], _, hlen => by simp at hlen
  | a :: b :: t, h, _ => by
    rw [List.pairwise_cons] at h
    have hab : a < b := h.1 b (by simp)
    have ih := pairwise_diff_sum_nonneg s (fun x => le_of_lt (hs x)) (b :: t) h.2
    simp only [List.tail_cons] at ih ⊢
    simp only [List.zip_cons_cons, List.map_cons, List.sum_cons]
    have h1 : 0 < s a * (b - a) := mul_pos (hs a) (by linarith)
    linarith [ih]

theorem linspace_pairwise (a b : ℚ) (hab : a < b) :
    List.Pairwise (· < ·) (linspace a b 20000) := by
  rw [linspace, List.pairwise_map]
  refine (List.pairwise_lt_range 20000).imp ?_
  intro m k hmk
  push_cast
  have hd : (0:ℚ) < b - a := by linarith
  have hnum : (b - a) * (m : ℚ) < (b - a) * (k : ℚ) := by
    have : (m : ℚ) < (k : ℚ) := by exact_mod_cast hmk
    nlinarith
  have hden : (0:ℚ) < 20000 - 1 := by norm_num
  apply add_lt_add_left
  exact div_lt_div_of_pos_right hnum hden

theorem linspace_length (a b : ℚ) : (linspace a b 20000).length = 20000 := by
  rw [linspace]
  simp

theorem grid_sum_pos (shape : ℚ → ℚ) (hs : ∀ lam, 0 < shape lam)
    (l : List ℚ) (hc : List.Pairwise (· < ·) l) (hlen : 2 ≤ l.length) :
    0 < (((l.map fun v => cLightUm / v).zip
        ((l.zip l.tail).map fun p => p.2 - p.1)).map
      fun p => shape p.1 * p.2).sum := by
  rw [List.zip_map_left, List.map_map]
  have hfun : ((fun p : ℚ × ℚ => shape p.1 * p.2) ∘
      Prod.map (fun v => cLightUm / v) id) =
      fun p : ℚ × ℚ => shape (cLightUm / p.1) * p.2 := by
    funext p
    simp [Prod.map]
  rw [hfun]
  exact pairwise_diff_sum_pos (fun v => shape (cLightUm / v)) (fun v => hs _) l hc hlen

theorem mbbShapeSum_pos (shape : ℚ → ℚ) (hs : ∀ lam, 0 < shape lam)
    (wlo whi : ℚ) (h1 : 0 < wlo) (h2 : wlo < whi) :
    0 < mbbShapeSum shape wlo whi := by
  have hcl : (0:ℚ) < cLightUm := by rw [cLightUm]; norm_num
  have hlh : cLightUm / whi < cLightUm / wlo :=
    div_lt_div_of_pos_left hcl h1 h2
  obtain ⟨l, hl, hc, hlen⟩ :
      ∃ l, mbbShapeSum shape wlo whi =
          (((l.map fun v => cLightUm / v).zip
              ((l.zip l.tail).map fun p => p.2 - p.1)).map
            fun p => shape p.1 * p.2).sum ∧
        List.Pairwise (· < ·) l ∧ 2 ≤ l.length :=
    ⟨linspace (cLightUm / whi) (cLightUm / wlo) 20000, rfl,
     linspace_pairwise (cLightUm / whi) (cLightUm / wlo) hlh,
     by rw [linspace_length]; norm_num⟩
  rw [hl]
  exact grid_sum_pos shape hs l hc hlen

/-- C8 counterexample: calling the integrator with reversed bounds
(1000, 8) does not raise; the guard fails and the function falls through,
returning Python None (modelled as Option.none) - an ordinary value the
caller only notices later. -/
theorem integrate_bounds_silent_cex :
    integrate_mbb (fun _ => 1) 1 1 [1000, 8] = none := by
  rw [integrate_mbb, if_neg]
  rintro ⟨-, hlt⟩
  rw [show ([1000, 8] : List ℚ).getD 0 0 = 1000 from rfl,
    show ([1000, 8] : List ℚ).getD 1 0 = 8 from rfl] at hlt
  exact absurd hlt (by norm_num)

/-- C8 (corrected): _integrate_mbb computes a luminosity exactly when the
bounds are a 2-element tuple with bounds[0] < bounds[1]; for any other
bounds it silently returns None (no exception is raised - the violation is
not reported by the integrator itself). -/
theorem integrate_some_iff_bounds (shape : ℚ → ℚ) (K N : ℚ) (wll : List ℚ) :
    (integrate_mbb shape K N wll).isSome = true ↔
      wll.length = 2 ∧ wll.getD 0 0 < wll.getD 1 0 := by
  rw [integrate_mbb]
  split
  next hc => simpa using hc
  next hc => simpa using hc

theorem integrate_some_iff_bounds_witness :
    (integrate_mbb (fun _ => (1:ℚ)) 1 1 [8, 1000]).isSome = true ↔
      ([8, 1000] : List ℚ).length = 2 ∧
        ([8, 1000] : List ℚ).getD 0 0 < ([8, 1000] : List ℚ).getD 1 0 :=
  integrate_some_iff_bounds (fun _ => 1) 1 1 [8, 1000]

/-- C9 counterexample: at redshift z = 0 the cosmology used by the source,
FlatLambdaCDM(H0=70, Om0=0.30), gives luminosity_distance(0) = 0 Mpc, so the
prefactor K = 4 pi DL^2 / (1+z) is 0 and the integral of _integrate_mbb is 0
for every normalization: at N1 = 1 < N2 = 2 both integrals are 0 and the
integrated luminosity is not strictly increasing. -/
theorem integrate_zero_distance_cex :
    integrate_mbb (fun _ => 1) 0 1 [8, 1000] = some 0 ∧
    integrate_mbb (fun _ => 1) 0 2 [8, 1000] = some 0 ∧ ¬((0:ℚ) < 0) := by
  have hx : ([8, 1000] : List ℚ).getD 0 0 = 8 := rfl
  have hy : ([8, 1000] : List ℚ).getD 1 0 = 1000 := rfl
  have hcond : ([8, 1000] : List ℚ).length = 2 ∧
      ([8, 1000] : List ℚ).getD 0 0 < ([8, 1000] : List ℚ).getD 1 0 := by
    refine ⟨rfl, ?_⟩
    rw [hx, hy]
    norm_num
  refine ⟨?_, ?_, by norm_num⟩ <;>
    rw [integrate_mbb, if_pos hcond, hx, hy, mbbSum_factor, zero_mul]

/-- C9 (corrected, spec-modelled): with the spectral model flux N * shape
(spec section 4.1) for a positive shape, the left-endpoint Riemann sum of
_integrate_mbb over the canonical 8-1000 micron band is strictly increasing
in the normalization N whenever the distance prefactor
K = 4 pi DL^2 / (1+z) is positive, i.e. whenever the luminosity distance is
nonzero (z > 0): for N1 < N2 the integrated luminosities v1 and v2 exist
and satisfy v1 < v2.  At z = 0 the luminosity distance of the external
cosmology is 0, K = 0, every integral is 0, and strictness fails. -/
theorem integrate_strict_mono_in_N (shape : ℚ → ℚ) (K N1 N2 : ℚ)
    (hK : 0 < K) (hs : ∀ lam, 0 < shape lam) (hN : N1 < N2) :
    ∃ v1 v2, integrate_mbb shape K N1 [8, 1000] = some v1 ∧
      integrate_mbb shape K N2 [8, 1000] = some v2 ∧ v1 < v2 := by
  have hx : ([8, 1000] : List ℚ).getD 0 0 = 8 := rfl
  have hy : ([8, 1000] : List ℚ).getD 1 0 = 1000 := rfl
  have hcond : ([8, 1000] : List ℚ).length = 2 ∧
      ([8, 1000] : List ℚ).getD 0 0 < ([8, 1000] : List ℚ).getD 1 0 := by
    refine ⟨rfl, ?_⟩
    rw [hx, hy]
    norm_num
  have he : ∀ N : ℚ, integrate_mbb shape K N [8, 1000] =
      some (K * (N * mbbShapeSum shape 8 1000)) := by
    intro N
    rw [integrate_mbb, if_pos hcond, hx, hy, mbbSum_factor]
  have hS : 0 < mbbShapeSum shape 8 1000 :=
    mbbShapeSum_pos shape hs 8 1000 (by norm_num) (by norm_num)
  exact ⟨K * (N1 * mbbShapeSum shape 8 1000), K * (N2 * mbbShapeSum shape 8 1000),
    he N1, he N2,
    mul_lt_mul_of_pos_left (mul_lt_mul_of_pos_right hN hS) hK⟩

theorem integrate_strict_mono_in_N_witness :
    ((0:ℚ) < 1) ∧ (∀ lam : ℚ, (0:ℚ) < 1) ∧ ((1:ℚ) < 2) ∧
    (∃ v1 v2, integrate_mbb (fun _ => (1:ℚ)) 1 1 [8, 1000] = some v1 ∧
      integrate_mbb (fun _ => (1:ℚ)) 1 2 [8, 1000] = some v2 ∧ v1 < v2) :=
  ⟨by norm_num, fun _ => by norm_num, by norm_num,
   integrate_strict_mono_in_N (fun _ => 1) 1 1 2 (by norm_num)
     (fun _ => by norm_num) (by norm_num)⟩

/-- C10 (confirmed): load_state_from_file sets opthin to True exactly when
the fifth tab-separated field of the second line is the exact string True,
and pl likewise for the sixth field; any other string in those fields
(misspelled or malformed) silently yields False - the function returns
normally rather than raising. -/
theorem load_flags_exact_string (lines : List String) (l1 b4 b5 : String)
    (fl : Bool × Bool) (h1 : lines.get? 1 = some l1)
    (h4 : (splitTab l1).get? 4 = some b4)
    (h5 : (splitTab l1).get? 5 = some b5)
    (h : load_flags lines = some fl) :
    (fl.1 = true ↔ b4 = "True") ∧ (fl.2 = true ↔ b5 = "True") := by
  rw [load_flags] at h
  simp only [h1, h4, h5, Option.some.injEq] at h
  subst h
  constructor
  · exact beq_iff_eq ..
  · exact beq_iff_eq ..

theorem load_flags_exact_string_witness :
    linesW.get? 1 = some "12.0\t35.0\t1.8\t2.0\tTure\tTrue\t" ∧
    (splitTab "12.0\t35.0\t1.8\t2.0\tTure\tTrue\t").get? 4 = some "Ture" ∧
    (splitTab "12.0\t35.0\t1.8\t2.0\tTure\tTrue\t").get? 5 = some "True" ∧
    load_flags linesW = some (false, true) ∧
    ((((false, true) : Bool × Bool).1 = true ↔ "Ture" = "True") ∧
     (((false, true) : Bool × Bool).2 = true ↔ "True" = "True")) :=
  ⟨rfl, by decide, by decide, by decide,
   load_flags_exact_string linesW "12.0\t35.0\t1.8\t2.0\tTure\tTrue\t"
     "Ture" "True" (false, true) rfl (by decide) (by decide) (by decide)⟩
